import Mathlib

/-!
Verification of the `wasm_mutex` crate (src/src/lib.rs) against its
natural-language specification.

The library is shallowly embedded as follows.

* `MutexState` mirrors the Rust `MutexState` struct: the waiter registry
  `wakers : Vec<(WakerId, Waker)>` and the `next_waker_id : u32` counter.
  A `WakerId` (`u32`) is a `Nat`, with the increment performed in the
  source taken modulo `2 ^ 32`; an opaque `Waker` is a `Nat` token naming
  the task it wakes.
* The registry operations are direct translations of the source closures:
  `MutexState.setWake` of the `set_wake` closure built in `Mutex::lock`
  (position search followed by `Vec::insert`, else `Vec::push`),
  `MutexState.takeOne` of `Vec::pop` as used by the `on_drop` closure of
  `MutexRef::new`, `onDropWakes` of that whole closure (pop, then invoke
  the popped waker if any), and `MutexState.lockId` of the id-assignment
  block at the start of `Mutex::lock`.
* `World` is the state of a whole system built on one `Mutex`: the borrow
  state of the value cell (`guards`, the number of live `MutexRef`s; a
  `RefCell::try_borrow_mut` / `Mutex::try_lock` probe succeeds exactly
  when it is `0`), the shared `MutexState`, the ids of live still-pending
  `LockFuture`s, bookkeeping of resolved futures, delivered wakes, guard
  creation/drop counts, and a chronological log of `Waker::wake` calls.
  `step` applies one operation (a `lock()` call, a poll of a future, a
  `try_lock`, a guard drop, or a drop of a pending future); a poll
  identifies the polled task's waker with the future's id.
-/

set_option maxHeartbeats 1000000

namespace WasmMutex

/-- The modulus of the `u32` type of `WakerId` in the source. -/
def U32 : Nat := 2 ^ 32

/-- The Rust `MutexState` struct (lib.rs lines 24-28): the waiter registry
and the waker-id counter. -/
structure MutexState where
  wakers : List (Nat × Nat)
  next_waker_id : Nat
  deriving DecidableEq

/-- `Default for MutexState` (lib.rs lines 30-37): empty registry,
counter `0`. -/
def MutexState.init : MutexState := ⟨[], 0⟩

/-- `Vec::iter().position(pred)` specialised to the predicate
`|(id, _waker)| *id == waker_id` used by the `set_wake` closure
(lib.rs line 96). -/
def position (waker_id : Nat) : List (Nat × Nat) → Option Nat
  | [] => none
  | (id, _) :: rest =>
      if id = waker_id then some 0 else (position waker_id rest).map (· + 1)

/-- `Vec::insert(i, a)`: insert `a` so that it ends up at index `i`,
shifting the suffix to the right. -/
def insertAt (i : Nat) (a : α) : List α → List α
  | l =>
    match i, l with
    | 0, l => a :: l
    | _ + 1, [] => [a]
    | n + 1, x :: l => x :: insertAt n a l

/-- The body of the `set_wake` closure built by `Mutex::lock`
(lib.rs lines 91-102): look for the position of an entry carrying
`waker_id`; if found, `Vec::insert` the new entry at that position,
otherwise `Vec::push` it at the end. -/
def setWakeL (wakers : List (Nat × Nat)) (waker_id waker : Nat) :
    List (Nat × Nat) :=
  match position waker_id wakers with
  | some i => insertAt i (waker_id, waker) wakers
  | none => wakers ++ [(waker_id, waker)]

/-- `set_wake` acting on the whole `MutexState`. -/
def MutexState.setWake (s : MutexState) (waker_id waker : Nat) : MutexState :=
  { s with wakers := setWakeL s.wakers waker_id waker }

/-- `state.wakers.pop()` as performed inside the `on_drop` closure of
`MutexRef::new` (lib.rs line 137): remove and return the last entry. -/
def MutexState.takeOne (s : MutexState) : Option (Nat × Nat) × MutexState :=
  match s.wakers.getLast? with
  | none => (none, s)
  | some e => (some e, { s with wakers := s.wakers.dropLast })

/-- The full `on_drop` closure of `MutexRef::new` (lib.rs lines 131-143):
pop one registry entry; if one was returned, invoke its waker.  The first
component lists the waker tokens actually invoked. -/
def onDropWakes (s : MutexState) : List Nat × MutexState :=
  match s.takeOne with
  | (some (_, wk), s') => ([wk], s')
  | (none, s') => ([], s')

/-- The id-assignment block at the start of `Mutex::lock`
(lib.rs lines 77-85): read `next_waker_id`, increment the `u32` counter. -/
def MutexState.lockId (s : MutexState) : Nat × MutexState :=
  (s.next_waker_id, { s with next_waker_id := (s.next_waker_id + 1) % U32 })

/-- Outcome of `LockFuture::poll` (lib.rs lines 182-196): `ready` when the
borrow probe on the value cell succeeds and a `MutexRef` guard is returned,
`pending` when it fails, `notLive` when the polled future no longer exists
(polling a resolved future is a contract violation; the model makes it a
no-op). -/
inductive PollOut where
  | ready
  | pending
  | notLive
  deriving DecidableEq

/-- Outcome of `Mutex::try_lock` (lib.rs lines 107-119): `acquired` maps to
`Some(MutexRef)`, `unavailable` to `None`. -/
inductive TryOut where
  | acquired
  | unavailable
  deriving DecidableEq

/-- The state of a whole system built over one `Mutex`: the number of live
guards on the value cell (`RefCell` borrow state; a `try_borrow_mut` probe
succeeds exactly when it is zero), the shared `MutexState`, the ids of
live not-yet-resolved `LockFuture`s, the ids of resolved ones, the tasks
woken and not yet re-polled, guard creation/drop counters, and the
chronological log of `Waker::wake` invocations. -/
structure World where
  guards : Nat
  st : MutexState
  live : List Nat
  resolvedL : List Nat
  woken : List Nat
  created : Nat
  dropped : Nat
  wakeLog : List Nat
  deriving DecidableEq

/-- The operations a client can perform on the system. -/
inductive Op where
  | lockCall
  | pollFut (fid : Nat)
  | tryLock
  | dropGuard
  | dropFut (fid : Nat)
  deriving DecidableEq

/-- The result `LockFuture::poll` would report in world `w` when the future
with id `fid` is polled: the poll probes the value cell
(`try_borrow_mut` / `try_lock`, lib.rs lines 183-186) and succeeds exactly
when no guard is live. -/
def pollResult (w : World) (fid : Nat) : PollOut :=
  if fid ∈ w.live then (if w.guards = 0 then .ready else .pending) else .notLive

/-- The result `Mutex::try_lock` would report in world `w`: the same probe
of the value cell, surfaced as `Some`/`None` (lib.rs lines 107-119). -/
def tryResult (w : World) : TryOut :=
  if w.guards = 0 then .acquired else .unavailable

/-- One step of the system.

* `lockCall` — `Mutex::lock` (lib.rs lines 76-105): draw a fresh waker id
  from the shared counter and create a live pending future with that id.
* `pollFut fid` — `LockFuture::poll` (lib.rs lines 182-196): probe the
  value cell; on success construct a guard (the future resolves, the
  registry is untouched); on failure run `set_wake` with the future's own
  id and the current task's waker and stay pending.  A woken future that
  is polled consumes its wake.
* `tryLock` — `Mutex::try_lock` (lib.rs lines 107-119): probe the value
  cell; on success create a guard; the registry is never touched.
* `dropGuard` — `MutexRef::drop` (lib.rs lines 162-166) running the
  `on_drop` closure (lib.rs lines 131-143): pop one registry entry; if one
  was returned invoke its waker (logged); the wake marks its task woken
  only if that future is still live, otherwise it is a no-op; the borrow
  on the value cell ends.
* `dropFut fid` — dropping a pending `LockFuture`: the type has no `Drop`
  implementation (lib.rs lines 168-177), so nothing but the future itself
  goes away. -/
def step (w : World) : Op → World
  | .lockCall =>
      match w.st.lockId with
      | (id, s') => { w with st := s', live := id :: w.live }
  | .pollFut fid =>
      if fid ∈ w.live then
        if w.guards = 0 then
          { w with guards := w.guards + 1, created := w.created + 1,
                   live := w.live.erase fid,
                   resolvedL := fid :: w.resolvedL,
                   woken := w.woken.erase fid }
        else
          { w with st := w.st.setWake fid fid,
                   woken := w.woken.erase fid }
      else w
  | .tryLock =>
      if w.guards = 0 then
        { w with guards := w.guards + 1, created := w.created + 1 }
      else w
  | .dropGuard =>
      if w.guards = 0 then w
      else
        match w.st.takeOne with
        | (none, s') =>
            { w with guards := w.guards - 1, dropped := w.dropped + 1,
                     st := s' }
        | (some (_, tok), s') =>
            { w with guards := w.guards - 1, dropped := w.dropped + 1,
                     st := s',
                     woken := if tok ∈ w.live then tok :: w.woken else w.woken,
                     wakeLog := w.wakeLog ++ [tok] }
  | .dropFut fid => { w with live := w.live.erase fid }

/-- Run a sequence of operations. -/
def runW (w : World) (ops : List Op) : World := ops.foldl step w

/-- The initial world: a freshly constructed `Mutex` (lib.rs lines 69-74):
default `MutexState`, no guards, no futures. -/
def initW : World := ⟨0, MutexState.init, [], [], [], 0, 0, []⟩

/-- The `Mutex<T>` value as it concerns serialization: the protected
payload together with the shared `MutexState` (lib.rs lines 39-43). -/
structure MutexM (T : Type) where
  value : T
  state : MutexState

/-- `serde::Serialize for Mutex<T>` (lib.rs lines 51-56): the serialized
form is a newtype wrapper of the payload alone; the waiter state does not
appear. -/
def serializeM {T : Type} (m : MutexM T) : T := m.value

/-- `serde::Deserialize for Mutex<T>` (lib.rs lines 58-66): the value comes
from the payload, the state is `Default::default()`. -/
def deserializeM {T : Type} (v : T) : MutexM T := ⟨v, MutexState.init⟩

/-- Whether an operation is a `Mutex::lock` call. -/
def isLockCall : Op → Bool
  | .lockCall => true
  | _ => false

/-- The number of `Mutex::lock` calls in an operation sequence. -/
def countLockCalls (ops : List Op) : Nat := ops.countP isLockCall

/-- Scenario for the wake-order claim: acquire the lock with `try_lock`,
create three futures A, B, C (ids 0, 1, 2) and poll each once (each
registers), then release; the woken future re-polls (acquires) and
releases, twice more. -/
def c3Ops : List Op :=
  [.tryLock, .lockCall, .pollFut 0, .lockCall, .pollFut 1, .lockCall,
   .pollFut 2, .dropGuard, .pollFut 2, .dropGuard, .pollFut 1, .dropGuard]

/-- Scenario refuting eventual acquisition: `try_lock` holds the lock;
future 0 polls and registers; future 1 polls, registers, and is then
dropped (cancelled) while registered; the guard is released.  The single
release pops future 1's orphaned entry, whose wake has no observer. -/
def c10Ops : List Op :=
  [.tryLock, .lockCall, .pollFut 0, .lockCall, .pollFut 1, .dropFut 1,
   .dropGuard]

/-- The world reached by the orphaned-entry scenario. -/
def c10W : World := runW initW c10Ops

/-- The only step an async host is obliged to take on its own: re-poll a
woken future.  With no woken task there is nothing to do. -/
def obligatedStep (w : World) : World :=
  match w.woken with
  | [] => w
  | tok :: _ => step w (.pollFut tok)

/-- Iterate the obligated step. -/
def iterOb : Nat → World → World
  | 0, w => w
  | n + 1, w => iterOb n (obligatedStep w)

/-- The canonical release chain over a reversed registry: release the live
guard; the popped (most recent) waiter is woken, re-polls and acquires;
its guard is released in turn, and so on. -/
def drainRev : List (Nat × Nat) → List Op
  | [] => [Op.dropGuard]
  | (_, tok) :: rest => Op.dropGuard :: Op.pollFut tok :: drainRev rest

/-- The canonical release chain for a registry. -/
def drainOps (es : List (Nat × Nat)) : List Op := drainRev es.reverse

/-- A contended world used to instantiate the amended eventual-acquisition
theorem: one guard live, one registered pending future. -/
def wAmended : World := ⟨1, ⟨[(0, 0)], 1⟩, [0], [], [], 1, 0, []⟩

theorem takeOne_next_waker_id (s : MutexState) :
    s.takeOne.2.next_waker_id = s.next_waker_id := by
  unfold MutexState.takeOne
  cases s.wakers.getLast? <;> rfl

/-- Claim C2: the claim fails on the code.  Registering waker token 7 under
id 0 in an empty registry and then registering token 8 under the same id
leaves two entries for id 0: the `set_wake` closure finds the position of
the existing entry and then calls `Vec::insert` there, which shifts the
old entry to the right instead of replacing it, so the registry grows by
one entry on every repeated poll. -/
theorem c2_register_duplicates_eval :
    (MutexState.setWake (MutexState.setWake MutexState.init 0 7) 0 8).wakers
        = [(0, 8), (0, 7)] ∧
      (MutexState.setWake
        (MutexState.setWake MutexState.init 0 7) 0 8).wakers.length = 2 :=
  ⟨rfl, rfl⟩

/-- Claim C3: registration is append-at-end and release pops from the end.
With a guard held by `try_lock`, futures A, B, C (ids 0, 1, 2) polled in
that order produce the registry `[A, B, C]`; three successive guard drops
(each woken future re-acquiring and releasing in turn) invoke the wakers
in the order C, B, A. -/
theorem c3_wake_order_lifo :
    (runW initW [.tryLock, .lockCall, .pollFut 0, .lockCall, .pollFut 1,
        .lockCall, .pollFut 2]).st.wakers = [(0, 0), (1, 1), (2, 2)] ∧
      (runW initW c3Ops).wakeLog = [2, 1, 0] :=
  ⟨rfl, rfl⟩

/-- Claim C4: the `on_drop` closure of a guard pops exactly one registry
entry and invokes exactly that entry's waker; on an empty registry it
invokes nothing and leaves the state unchanged. -/
theorem c4_release_wakes_exactly_one (s : MutexState) :
    (s.wakers = [] → onDropWakes s = ([], s)) ∧
      ∀ h : s.wakers ≠ [],
        (onDropWakes s).1 = [(s.wakers.getLast h).2] ∧
          (onDropWakes s).2.wakers = s.wakers.dropLast ∧
          (onDropWakes s).2.wakers.length + 1 = s.wakers.length := by
  constructor
  · intro h
    simp [onDropWakes, MutexState.takeOne, h]
  · intro h
    have hl : s.wakers.getLast? = some (s.wakers.getLast h) :=
      List.getLast?_eq_getLast s.wakers h
    refine ⟨?_, ?_, ?_⟩
    · simp [onDropWakes, MutexState.takeOne, hl]
    · simp [onDropWakes, MutexState.takeOne, hl]
    · have hp : 0 < s.wakers.length := List.length_pos.mpr h
      simp [onDropWakes, MutexState.takeOne, hl, List.length_dropLast]
      omega

theorem c4_release_witness :
    (onDropWakes ⟨[(3, 5)], 4⟩).1 = [5] ∧
      (onDropWakes ⟨[(3, 5)], 4⟩).2.wakers = [] :=
  have h := (c4_release_wakes_exactly_one ⟨[(3, 5)], 4⟩).2 (by decide)
  ⟨by simpa using h.1, by simpa using h.2.1⟩

/-- Claim C5: a poll of a live future first probes the value cell; on
success it reports ready (a guard is produced) and leaves the registry
untouched; on failure it reports pending and registers the current waker
under the future's own pre-assigned id. -/
theorem c5_poll_behavior (w : World) (fid : Nat) (hl : fid ∈ w.live) :
    (w.guards = 0 →
        pollResult w fid = PollOut.ready ∧
          (step w (.pollFut fid)).guards = w.guards + 1 ∧
          (step w (.pollFut fid)).st = w.st) ∧
      (w.guards ≠ 0 →
        pollResult w fid = PollOut.pending ∧
          (step w (.pollFut fid)).st.wakers = setWakeL w.st.wakers fid fid ∧
          (step w (.pollFut fid)).guards = w.guards) := by
  constructor
  · intro hg
    refine ⟨?_, ?_, ?_⟩ <;> simp [pollResult, step, hl, hg]
  · intro hg
    refine ⟨?_, ?_, ?_⟩ <;> simp [pollResult, step, hl, hg, MutexState.setWake]

theorem c5_poll_witness :
    pollResult ⟨0, MutexState.init, [0], [], [], 0, 0, []⟩ 0 = PollOut.ready ∧
      pollResult ⟨1, MutexState.init, [0], [], [], 1, 0, []⟩ 0
        = PollOut.pending :=
  ⟨((c5_poll_behavior ⟨0, MutexState.init, [0], [], [], 0, 0, []⟩ 0
      (by decide)).1 rfl).1,
    ((c5_poll_behavior ⟨1, MutexState.init, [0], [], [], 1, 0, []⟩ 0
      (by decide)).2 (by decide)).1⟩

/-- Claim C6: `try_lock` never touches the waiter registry; on a held
mutex it reports unavailable (`None`) and changes nothing; on an unheld
mutex it reports acquired (`Some` guard). -/
theorem c6_try_lock_behavior (w : World) :
    (step w .tryLock).st = w.st ∧
      (w.guards ≠ 0 →
        tryResult w = TryOut.unavailable ∧ step w .tryLock = w) ∧
      (w.guards = 0 →
        tryResult w = TryOut.acquired ∧
          (step w .tryLock).guards = w.guards + 1) := by
  refine ⟨?_, fun hg => ⟨?_, ?_⟩, fun hg => ⟨?_, ?_⟩⟩
  · by_cases hg : w.guards = 0 <;> simp [step, hg]
  · simp [tryResult, hg]
  · simp [step, hg]
  · simp [tryResult, hg]
  · simp [step, hg]

theorem c6_try_lock_witness :
    tryResult ⟨1, MutexState.init, [], [], [], 1, 0, []⟩ = TryOut.unavailable ∧
      tryResult initW = TryOut.acquired :=
  ⟨((c6_try_lock_behavior ⟨1, MutexState.init, [], [], [], 1, 0, []⟩).2.1
      (by decide)).1,
    ((c6_try_lock_behavior initW).2.2 rfl).1⟩

/-- Claim C8: dropping a pending future changes neither the registry nor
the borrow state of the value cell (`LockFuture` has no `Drop`
implementation), and a successful (resolving) poll also leaves the
registry untouched, so a previously registered entry stays until a guard
release pops it. -/
theorem c8_drop_and_resolve_frame (w : World) (fid : Nat) :
    (step w (.dropFut fid)).st = w.st ∧
      (step w (.dropFut fid)).guards = w.guards ∧
      (fid ∈ w.live → w.guards = 0 →
        (step w (.pollFut fid)).st = w.st) := by
  refine ⟨rfl, rfl, fun hl hg => ?_⟩
  simp [step, hl, hg]

theorem c8_drop_witness :
    (step c10W (.dropFut 0)).st = c10W.st ∧
      (step ⟨0, MutexState.init, [0], [], [], 0, 0, []⟩ (.pollFut 0)).st
        = (⟨0, MutexState.init, [0], [], [], 0, 0, []⟩ : World).st :=
  ⟨(c8_drop_and_resolve_frame c10W 0).1,
    (c8_drop_and_resolve_frame ⟨0, MutexState.init, [0], [], [], 0, 0, []⟩ 0).2.2
      (by decide) rfl⟩

/-- Claim C9: serialization writes the wrapped value alone, and
deserialization of any serialized mutex yields that payload together with
a default waiter state: empty registry, counter reset to 0 — regardless
of the state serialized from. -/
theorem c9_serde_resets_state (T : Type) (m : MutexM T) :
    serializeM m = m.value ∧
      (deserializeM (serializeM m)).value = m.value ∧
      (deserializeM (serializeM m)).state = MutexState.init ∧
      (deserializeM (serializeM m)).state.wakers = [] ∧
      (deserializeM (serializeM m)).state.next_waker_id = 0 :=
  ⟨rfl, rfl, rfl, rfl, rfl⟩

theorem step_guards_le (w : World) (o : Op) (h : w.guards ≤ 1) :
    (step w o).guards ≤ 1 := by
  have hle : w.guards - 1 ≤ 1 := le_trans (Nat.sub_le _ _) h
  cases o with
  | lockCall => simpa [step, MutexState.lockId] using h
  | pollFut fid =>
      by_cases hl : fid ∈ w.live
      · by_cases hg : w.guards = 0
        · simp [step, hl, hg]
        · simpa [step, hl, hg] using h
      · simpa [step, hl] using h
  | tryLock =>
      by_cases hg : w.guards = 0
      · simp [step, hg]
      · simpa [step, hg] using h
  | dropGuard =>
      by_cases hg : w.guards = 0
      · simp [step, hg]
      · rcases htk : w.st.takeOne with ⟨e, s'⟩
        cases e with
        | none => simpa [step, hg, htk] using hle
        | some p =>
            rcases p with ⟨id, tok⟩
            simpa [step, hg, htk] using hle
  | dropFut fid => simpa [step] using h

theorem runW_guards_le (ops : List Op) (w : World) (h : w.guards ≤ 1) :
    (runW w ops).guards ≤ 1 := by
  induction ops generalizing w with
  | nil => exact h
  | cons o ops ih => exact ih (step w o) (step_guards_le w o h)

/-- Claim C1: mutual exclusion.  Along every operation sequence from a
fresh mutex at most one guard is live, and whenever a guard is live, a
poll of any live pending future reports pending and `try_lock` reports
unavailable. -/
theorem c1_mutual_exclusion (ops : List Op) (fid : Nat) :
    (runW initW ops).guards ≤ 1 ∧
      ((runW initW ops).guards = 1 →
        (fid ∈ (runW initW ops).live →
          pollResult (runW initW ops) fid = PollOut.pending) ∧
          tryResult (runW initW ops) = TryOut.unavailable) := by
  refine ⟨runW_guards_le ops initW (by decide), fun hg => ⟨fun hl => ?_, ?_⟩⟩
  · simp [pollResult, hl, hg]
  · simp [tryResult, hg]

theorem c1_mutual_exclusion_witness :
    (runW initW [.lockCall, .tryLock]).guards ≤ 1 ∧
      pollResult (runW initW [.lockCall, .tryLock]) 0 = PollOut.pending ∧
      tryResult (runW initW [.lockCall, .tryLock]) = TryOut.unavailable :=
  have h := c1_mutual_exclusion [.lockCall, .tryLock] 0
  ⟨h.1, (h.2 (by decide)).1 (by decide), (h.2 (by decide)).2⟩

theorem runW_append_one (w : World) (l : List Op) (o : Op) :
    runW w (l ++ [o]) = step (runW w l) o := by
  simp [runW, List.foldl_append]

theorem step_frame (w : World) (o : Op) (ho : isLockCall o = false) :
    (step w o).st.next_waker_id = w.st.next_waker_id ∧
      ((step w o).live = w.live ∨
        ∃ fid, (step w o).live = w.live.erase fid) := by
  cases o with
  | lockCall => simp [isLockCall] at ho
  | pollFut fid =>
      by_cases hl : fid ∈ w.live
      · by_cases hg : w.guards = 0
        · exact ⟨by simp [step, hl, hg], Or.inr ⟨fid, by simp [step, hl, hg]⟩⟩
        · exact ⟨by simp [step, hl, hg, MutexState.setWake],
            Or.inl (by simp [step, hl, hg])⟩
      · exact ⟨by simp [step, hl], Or.inl (by simp [step, hl])⟩
  | tryLock =>
      by_cases hg : w.guards = 0
      · exact ⟨by simp [step, hg], Or.inl (by simp [step, hg])⟩
      · exact ⟨by simp [step, hg], Or.inl (by simp [step, hg])⟩
  | dropGuard =>
      by_cases hg : w.guards = 0
      · exact ⟨by simp [step, hg], Or.inl (by simp [step, hg])⟩
      · rcases htk : w.st.takeOne with ⟨e, s'⟩
        have hs' : s'.next_waker_id = w.st.next_waker_id := by
          have h2 := takeOne_next_waker_id w.st
          rw [htk] at h2
          exact h2
        cases e with
        | none =>
            exact ⟨by simp [step, hg, htk, hs'],
              Or.inl (by simp [step, hg, htk])⟩
        | some p =>
            rcases p with ⟨id, tok⟩
            exact ⟨by simp [step, hg, htk, hs'],
              Or.inl (by simp [step, hg, htk])⟩
  | dropFut fid => exact ⟨by simp [step], Or.inr ⟨fid, by simp [step]⟩⟩

theorem step_ids_preserved (w : World) (o : Op) (ho : isLockCall o = false)
    (hnd : w.live.Nodup) (hb : ∀ i ∈ w.live, i < w.st.next_waker_id) :
    (step w o).st.next_waker_id = w.st.next_waker_id ∧
      (step w o).live.Nodup ∧
      ∀ i ∈ (step w o).live, i < (step w o).st.next_waker_id := by
  obtain ⟨hst, hlv⟩ := step_frame w o ho
  refine ⟨hst, ?_, ?_⟩
  · rcases hlv with h | ⟨fid, h⟩
    · rw [h]; exact hnd
    · rw [h]; exact hnd.erase fid
  · intro i hi
    rw [hst]
    rcases hlv with h | ⟨fid, h⟩
    · rw [h] at hi; exact hb i hi
    · rw [h] at hi; exact hb i (List.mem_of_mem_erase hi)

theorem runW_ids (ops : List Op) (h : countLockCalls ops < U32) :
    (runW initW ops).st.next_waker_id = countLockCalls ops ∧
      (runW initW ops).live.Nodup ∧
      ∀ i ∈ (runW initW ops).live, i < (runW initW ops).st.next_waker_id := by
  induction ops using List.reverseRecOn with
  | nil => exact ⟨rfl, List.nodup_nil, by intro i hi; cases hi⟩
  | append_singleton l o ih =>
      have hcount : countLockCalls (l ++ [o])
          = countLockCalls l + countLockCalls [o] := by
        simp [countLockCalls, List.countP_append]
      have hmono : countLockCalls l ≤ countLockCalls (l ++ [o]) := by
        rw [hcount]; exact Nat.le_add_right _ _
      obtain ⟨hnid, hnd, hb⟩ := ih (lt_of_le_of_lt hmono h)
      rw [runW_append_one]
      by_cases ho : isLockCall o = false
      · obtain ⟨hst, hnd', hb'⟩ := step_ids_preserved (runW initW l) o ho hnd hb
        have hcnt0 : countLockCalls [o] = 0 := by
          simp [countLockCalls, List.countP_cons, ho]
        refine ⟨?_, hnd', hb'⟩
        rw [hst, hnid, hcount, hcnt0]
        omega
      · have holc : o = Op.lockCall := by
          cases o <;> simp_all [isLockCall]
        subst holc
        have hcnt : countLockCalls (l ++ [Op.lockCall])
            = countLockCalls l + 1 := by
          simp [countLockCalls, List.countP_append, List.countP_cons,
            isLockCall]
        have hlt : countLockCalls l + 1 < U32 := by
          rw [← hcnt]; exact h
        have hmod : (countLockCalls l + 1) % U32 = countLockCalls l + 1 :=
          Nat.mod_eq_of_lt hlt
        refine ⟨?_, ?_, ?_⟩
        · simp [step, MutexState.lockId, hnid, hmod, hcnt]
        · simp only [step, MutexState.lockId]
          refine List.nodup_cons.mpr ⟨fun hmem => ?_, hnd⟩
          have := hb _ hmem
          omega
        · intro i hi
          simp only [step, MutexState.lockId] at hi ⊢
          rcases List.mem_cons.mp hi with hi | hi
          · rw [hi, hnid, hmod]
            omega
          · have := hb i hi
            rw [hnid] at this
            rw [hnid, hmod]
            omega

/-- Claim C7: `Mutex::lock` hands the new future the current value of the
shared `next_waker_id` counter and increments the counter by one (modulo
the `u32` width); as long as the counter has not wrapped, the counter
equals the number of `lock` calls made, successively handed-out ids
strictly increase, and the ids of live futures are pairwise distinct. -/
theorem c7_waker_id_assignment :
    (∀ w : World,
        (step w Op.lockCall).live = w.st.next_waker_id :: w.live ∧
          (step w Op.lockCall).st.next_waker_id
            = (w.st.next_waker_id + 1) % U32) ∧
      (∀ w : World, w.st.next_waker_id + 1 < U32 →
        (step w Op.lockCall).st.next_waker_id = w.st.next_waker_id + 1) ∧
      ∀ ops : List Op, countLockCalls ops < U32 →
        (runW initW ops).st.next_waker_id = countLockCalls ops ∧
          (runW initW ops).live.Nodup ∧
          ∀ i ∈ (runW initW ops).live,
            i < (runW initW ops).st.next_waker_id := by
  refine ⟨fun w => ⟨rfl, rfl⟩, fun w hw => ?_, runW_ids⟩
  simp [step, MutexState.lockId, Nat.mod_eq_of_lt hw]

theorem c7_waker_id_witness :
    (step initW Op.lockCall).st.next_waker_id = 1 ∧
      (runW initW [Op.lockCall, Op.lockCall]).st.next_waker_id
          = countLockCalls [Op.lockCall, Op.lockCall] ∧
      (runW initW [Op.lockCall, Op.lockCall]).live.Nodup :=
  have h := c7_waker_id_assignment
  have h3 := h.2.2 [Op.lockCall, Op.lockCall] (by decide)
  ⟨h.2.1 initW (by decide), h3.1, h3.2.1⟩

theorem obligatedStep_c10W : obligatedStep c10W = c10W := by decide

theorem iterOb_c10W : ∀ n, iterOb n c10W = c10W := by
  intro n
  induction n with
  | zero => rfl
  | succ n ih =>
      show iterOb n (obligatedStep c10W) = c10W
      rw [obligatedStep_c10W]
      exact ih

/-- Claim C10: the claim fails on the code.  In the run `c10Ops` a guard
is taken with `try_lock`, futures 0 and 1 poll and register, future 1 is
dropped while registered, and the guard is released.  Every guard that was
created has been dropped, yet the single wake of that release is consumed
by future 1's orphaned entry (its `wake` has no observer, visible in the
log), future 0 stays pending with its entry still queued, no task is
woken, and however many host-obligated steps (re-polls of woken futures)
follow, future 0 is never woken and never resolves. -/
theorem c10_eventual_acquisition_cex :
    c10W.created = c10W.dropped ∧
      c10W.guards = 0 ∧
      0 ∈ c10W.live ∧
      0 ∉ c10W.resolvedL ∧
      c10W.st.wakers = [(0, 0)] ∧
      c10W.woken = [] ∧
      c10W.wakeLog = [1] ∧
      ∀ n, 0 ∈ (iterOb n c10W).live ∧ 0 ∉ (iterOb n c10W).resolvedL := by
  refine ⟨by decide, by decide, by decide, by decide, by decide, by decide,
    by decide, fun n => ?_⟩
  rw [iterOb_c10W n]
  exact ⟨by decide, by decide⟩

theorem step_resolved_mono (w : World) (o : Op) (x : Nat)
    (hx : x ∈ w.resolvedL) : x ∈ (step w o).resolvedL := by
  cases o with
  | lockCall => simpa [step, MutexState.lockId] using hx
  | pollFut fid =>
      by_cases hl : fid ∈ w.live
      · by_cases hg : w.guards = 0
        · simp only [step, if_pos hl, if_pos hg]
          exact List.mem_cons_of_mem _ hx
        · simpa [step, hl, hg] using hx
      · simpa [step, hl] using hx
  | tryLock =>
      by_cases hg : w.guards = 0 <;> simpa [step, hg] using hx
  | dropGuard =>
      by_cases hg : w.guards = 0
      · simpa [step, hg] using hx
      · rcases htk : w.st.takeOne with ⟨e, s'⟩
        cases e with
        | none => simpa [step, hg, htk] using hx
        | some p =>
            rcases p with ⟨id, tok⟩
            simpa [step, hg, htk] using hx
  | dropFut fid => simpa [step] using hx

theorem runW_resolved_mono (ops : List Op) (w : World) (x : Nat)
    (hx : x ∈ w.resolvedL) : x ∈ (runW w ops).resolvedL := by
  induction ops generalizing w with
  | nil => exact hx
  | cons o ops ih => exact ih (step w o) (step_resolved_mono w o x hx)

theorem drainRev_resolves (rev : List (Nat × Nat)) :
    ∀ w : World, w.guards = 1 → w.st.wakers = rev.reverse →
      w.live.Nodup → (∀ e ∈ rev, e.2 ∈ w.live) →
      (rev.map Prod.snd).Nodup →
      ∀ tok ∈ rev.map Prod.snd, tok ∈ (runW w (drainRev rev)).resolvedL := by
  induction rev with
  | nil =>
      intro w _ _ _ _ _ tok htok
      simp at htok
  | cons e rest ih =>
      rcases e with ⟨id, tok⟩
      intro w hg hwk hnd hent hone tok' htok'
      obtain ⟨g, ⟨wks, nid⟩, lv, res, wok, cr, dr, log⟩ := w
      replace hg : g = 1 := hg
      replace hwk : wks = rest.reverse ++ [(id, tok)] := by
        rw [← List.reverse_cons]
        exact hwk
      subst hg
      subst hwk
      have htokmem : tok ∈ lv := hent (id, tok) (List.mem_cons_self _ _)
      replace hnd : lv.Nodup := hnd
      have hone' : tok ∉ rest.map Prod.snd ∧ (rest.map Prod.snd).Nodup := by
        have := hone
        rw [List.map_cons] at this
        exact List.nodup_cons.mp this
      have h1 : step ⟨1, ⟨rest.reverse ++ [(id, tok)], nid⟩, lv, res, wok, cr,
          dr, log⟩ .dropGuard
          = ⟨0, ⟨rest.reverse, nid⟩, lv, res, tok :: wok, cr, dr + 1,
            log ++ [tok]⟩ := by
        simp [step, MutexState.takeOne, List.getLast?_concat,
          List.dropLast_concat, htokmem]
      have h2 : step ⟨0, ⟨rest.reverse, nid⟩, lv, res, tok :: wok, cr, dr + 1,
          log ++ [tok]⟩ (.pollFut tok)
          = ⟨1, ⟨rest.reverse, nid⟩, lv.erase tok, tok :: res, wok, cr + 1,
            dr + 1, log ++ [tok]⟩ := by
        simp [step, htokmem]
      have hrun : runW ⟨1, ⟨rest.reverse ++ [(id, tok)], nid⟩, lv, res, wok,
          cr, dr, log⟩ (drainRev ((id, tok) :: rest))
          = runW ⟨1, ⟨rest.reverse, nid⟩, lv.erase tok, tok :: res, wok,
            cr + 1, dr + 1, log ++ [tok]⟩ (drainRev rest) := by
        show List.foldl step _ (Op.dropGuard :: Op.pollFut tok :: drainRev rest)
            = _
        rw [List.foldl_cons, List.foldl_cons, h1, h2]
        rfl
      rw [hrun]
      have htok'' : tok' = tok ∨ tok' ∈ rest.map Prod.snd := by
        have := htok'
        rw [List.map_cons] at this
        exact List.mem_cons.mp this
      rcases htok'' with htok'' | htok''
      · subst htok''
        exact runW_resolved_mono _ _ tok' (List.mem_cons_self _ _)
      · refine ih ⟨1, ⟨rest.reverse, nid⟩, lv.erase tok, tok :: res, wok,
          cr + 1, dr + 1, log ++ [tok]⟩ rfl rfl (hnd.erase tok) ?_ hone'.2
          tok' htok''
        intro e he
        have hne : e.2 ≠ tok := by
          intro hEq
          exact hone'.1 (hEq ▸ List.mem_map_of_mem Prod.snd he)
        exact (List.mem_erase_of_ne hne).mpr
          (hent e (List.mem_cons_of_mem _ he))

/-- Claim C10, amended: eventual acquisition holds once the two failure
sources exposed by the counterexample are excluded.  If one guard is live,
no registered pending future has been dropped (every registry entry's task
is a live pending future) and no future was re-polled into a duplicate
entry (the registered tasks are pairwise distinct), then the chain of
releases and wake-triggered re-polls (`drainOps`) resolves every
registered pending future. -/
theorem c10_eventual_acquisition_amended (w : World)
    (hg : w.guards = 1)
    (hnd : w.live.Nodup)
    (hent : ∀ e ∈ w.st.wakers, e.2 ∈ w.live)
    (hone : (w.st.wakers.map Prod.snd).Nodup) :
    ∀ f ∈ w.st.wakers.map Prod.snd,
      f ∈ (runW w (drainOps w.st.wakers)).resolvedL := by
  intro f hf
  have h := drainRev_resolves w.st.wakers.reverse w hg
    (by rw [List.reverse_reverse]) hnd
    (fun e he => hent e (List.mem_reverse.mp he))
    (by rw [List.map_reverse]; exact List.nodup_reverse.mpr hone)
    f (by rw [List.map_reverse]; exact List.mem_reverse.mpr hf)
  simpa [drainOps] using h

theorem c10_amended_witness :
    0 ∈ (runW wAmended (drainOps wAmended.st.wakers)).resolvedL :=
  c10_eventual_acquisition_amended wAmended rfl (by decide) (by decide)
    (by decide) 0 (by decide)

end WasmMutex
